import Mathlib

/-!
Verification development for the `cmark_xml` crate of the cmark-translate
repository (file `cmark_xml/src/lib.rs`).

The crate converts between a CommonMark document tree (the comrak AST) and an
XML DOM (minidom elements), and additionally provides a text-level escaper that
hides Hugo/Zola style shortcode markers from the CommonMark parser.

Shallow embedding conventions:
- Rust `&str` / `String` values are modelled as Lean `String`, with the raw
  scanning algorithms working on `List Char` (Rust byte positions of the ASCII
  search patterns coincide with character positions on valid UTF-8).
- `Vec<u8>` payloads in the comrak AST always hold UTF-8 text in this crate
  (the code `unwrap`s the conversions), so they are modelled as `String`.
- Rust numeric fields are modelled as `Nat` together with the width bound used
  by `str::parse` for the concrete field type (`u8`, `u32`, `usize`).
- The single panic reachable in the reconstructor
  (`xml_elm.attr("align").unwrap()`) is modelled by `Option`: `none` is a panic.
- Recursive scanners are written with an explicit fuel argument initialised to
  `length + 1`; each loop iteration of the Rust code consumes at least one
  character, so the fuel is never exhausted (`scanGo_congr` below makes the
  fuel irrelevant).
-/

namespace CmarkXml

/-! ### Model of the Rust string primitives used by the escaper -/

/-- Model of Rust `str::split_once`: splits the haystack around the first
occurrence of the pattern `p`, returning the text before and after it. -/
def splitOnceL (p : List Char) (h : List Char) : Option (List Char × List Char) :=
  if p.isPrefixOf h then some ([], h.drop p.length)
  else
    match h with
    | [] => none
    | c :: t => (splitOnceL p t).map fun pr => (c :: pr.1, pr.2)

/-- Fueled body of one escaping / unescaping pass of
`escape_all_shortcodes` / `unescape_all_shortcodes` (lines 112-189): repeatedly
find the marker `opn`, then its closer `cls`, and emit the shortcode between
`pre` and `post`; if the closer is missing, the rest of the input up to EOF is
treated as the shortcode body. -/
def scanGo (opn cls pre post : List Char) : Nat → List Char → List Char
  | 0, s => s
  | fuel + 1, s =>
    match splitOnceL opn s with
    | none => s
    | some (l, r) =>
      match splitOnceL cls r with
      | none => l ++ pre ++ r ++ post
      | some (sc, rest) => l ++ pre ++ sc ++ post ++ scanGo opn cls pre post fuel rest

/-- One full pass of the Rust while-let loop. -/
def scanReplace (opn cls pre post : List Char) (s : List Char) : List Char :=
  scanGo opn cls pre post (s.length + 1) s

/-- Fueled check that a scanning pass never takes its swallow-to-EOF branch:
every occurrence of `opn` that the loop processes has a later `cls`. -/
def allMatchedGo (opn cls : List Char) : Nat → List Char → Bool
  | 0, _ => true
  | fuel + 1, s =>
    match splitOnceL opn s with
    | none => true
    | some (_, r) =>
      match splitOnceL cls r with
      | none => false
      | some (_, rest) => allMatchedGo opn cls fuel rest

/-- Every `opn` marker processed by the scanning loop has a matching `cls`. -/
def allMatched (opn cls : List Char) (s : List Char) : Bool :=
  allMatchedGo opn cls (s.length + 1) s

/-! ### The concrete markers (built from characters to keep brace literals out
of strings).  `mOpen1`/`mClose1` delimit a brace shortcode, `mOpen2`/`mClose2`
a percent shortcode; `wOpen1`/`wClose1` and `wOpen2`/`wClose2` are the comment
style disguise wrappers the escaper produces. -/

def mOpen1 : List Char := ['{', '{']

def mClose1 : List Char := ['}', '}']

def mOpen2 : List Char := ['{', '%']

def mClose2 : List Char := ['%', '}']

def wOpen1 : List Char := ['<', '!', '-', '-', '{', '{']

def wClose1 : List Char := ['}', '}', '-', '-', '>']

def wOpen2 : List Char := ['<', '!', '-', '-', '{', '%']

def wClose2 : List Char := ['%', '}', '-', '-', '>']

/-- First loop of `escape_all_shortcodes` (lines 117-129): disguise every brace
shortcode. -/
def escapePass1 (s : List Char) : List Char :=
  scanReplace mOpen1 mClose1 wOpen1 wClose1 s

/-- Second loop of `escape_all_shortcodes` (lines 132-146): disguise every
percent shortcode in the result of the first pass. -/
def escapePass2 (s : List Char) : List Char :=
  scanReplace mOpen2 mClose2 wOpen2 wClose2 s

/-- First loop of `unescape_all_shortcodes` (lines 157-169): restore the
percent-shortcode wrappers. -/
def unescapePass1 (s : List Char) : List Char :=
  scanReplace wOpen2 wClose2 mOpen2 mClose2 s

/-- Second loop of `unescape_all_shortcodes` (lines 174-186): restore the
brace-shortcode wrappers. -/
def unescapePass2 (s : List Char) : List Char :=
  scanReplace wOpen1 wClose1 mOpen1 mClose1 s

/-- Model of `escape_all_shortcodes` (lines 112-149). -/
def escape_all_shortcodes (s : String) : String :=
  ⟨escapePass2 (escapePass1 s.data)⟩

/-- Model of `unescape_all_shortcodes` (lines 152-189). -/
def unescape_all_shortcodes (s : String) : String :=
  ⟨unescapePass2 (unescapePass1 s.data)⟩

/-- The pattern `p` has no nontrivial border: no proper nonempty suffix of `p`
is also a prefix of `p`.  All four disguise wrappers have this property, which
is what makes the first occurrence found by `split_once` unambiguous. -/
def brdFree (p : List Char) : Prop :=
  ∀ k, k < p.length → 0 < k → ¬ (p.drop k <+: p)

/-! ### Model of Rust integer parsing (`str::parse::<uN>().unwrap_or(default)`) -/

/-- Value of a nonempty all-digit character sequence, `none` otherwise. -/
def parseDigits (cs : List Char) : Option Nat :=
  if cs = [] then none
  else if cs.all (fun c => c.isDigit) then
    some (cs.foldl (fun a c => a * 10 + (c.toNat - 48)) 0)
  else none

/-- Model of `str::parse` for an unsigned integer type, ignoring the width:
an optional leading plus sign followed by at least one decimal digit. -/
def parseUint (s : String) : Option Nat :=
  match s.data with
  | '+' :: rest => parseDigits rest
  | cs => parseDigits cs

/-- Model of `str::parse::<uN>`: parsing fails when the value exceeds the
width of the target type (`bound` is two to the bit width). -/
def parseUintIn (bound : Nat) (s : String) : Option Nat :=
  match parseUint s with
  | some n => if n < bound then some n else none
  | none => none

/-- Width bound of `u8`. -/
def U8 : Nat := 256

/-- Width bound of `u32` (the comrak heading level field). -/
def U32 : Nat := 4294967296

/-- Width bound of `usize` (64-bit, the comrak offset / padding / start fields). -/
def USIZE : Nat := 18446744073709551616

/-! ### The comrak AST model (`comrak::nodes`), restricted to the fields the
crate reads or writes. -/

/-- comrak `ListType`. -/
inductive ListType where
  | bullet
  | ordered
deriving DecidableEq, Repr

/-- comrak `ListDelimType`. -/
inductive ListDelimType where
  | period
  | paren
deriving DecidableEq, Repr

/-- comrak `TableAlignment`.  The unspecified alignment is called `none` in
comrak; it is named `unspec` here to keep it distinct from `Option.none`. -/
inductive TableAlignment where
  | unspec
  | left
  | center
  | right
deriving DecidableEq, Repr

/-- comrak `NodeList` (used by both `List` and `Item` nodes). -/
structure NodeList where
  list_type : ListType
  marker_offset : Nat
  padding : Nat
  start : Nat
  delimiter : ListDelimType
  bullet_char : Nat
  tight : Bool
deriving DecidableEq, Repr

/-- comrak `NodeDescriptionItem`. -/
structure NodeDescriptionItem where
  marker_offset : Nat
  padding : Nat
deriving DecidableEq, Repr

/-- comrak `NodeCodeBlock` (UTF-8 payloads as `String`). -/
structure NodeCodeBlock where
  fenced : Bool
  fence_char : Nat
  fence_length : Nat
  fence_offset : Nat
  info : String
  literal : String
deriving DecidableEq, Repr

/-- comrak `NodeHtmlBlock`. -/
structure NodeHtmlBlock where
  block_type : Nat
  literal : String
deriving DecidableEq, Repr

/-- comrak `NodeHeading`. -/
structure NodeHeading where
  level : Nat
  setext : Bool
deriving DecidableEq, Repr

/-- comrak `NodeCode`. -/
structure NodeCode where
  num_backticks : Nat
  literal : String
deriving DecidableEq, Repr

/-- comrak `NodeLink` (used by `Link` and `Image`). -/
structure NodeLink where
  url : String
  title : String
deriving DecidableEq, Repr

/-- comrak `NodeValue`: the tagged union of document node kinds. -/
inductive NodeValue where
  | document
  | frontMatter (t : String)
  | blockQuote
  | list (nl : NodeList)
  | item (nl : NodeList)
  | descriptionList
  | descriptionItem (nd : NodeDescriptionItem)
  | descriptionTerm
  | descriptionDetails
  | codeBlock (cb : NodeCodeBlock)
  | htmlBlock (hb : NodeHtmlBlock)
  | paragraph
  | heading (hd : NodeHeading)
  | thematicBreak
  | footnoteDefinition (t : String)
  | table (align : List TableAlignment)
  | tableRow (hdr : Bool)
  | tableCell
  | text (t : String)
  | taskItem (checked : Bool)
  | softBreak
  | lineBreak
  | code (c : NodeCode)
  | htmlInline (t : String)
  | emph
  | strong
  | strikethrough
  | superscript
  | link (u : NodeLink)
  | image (u : NodeLink)
  | footnoteReference (t : String)
deriving DecidableEq, Repr

/-- A comrak `AstNode`: a node value with its ordered children. -/
inductive AstNode where
  | mk (v : NodeValue) (children : List AstNode)

/-- A minidom node: an element (tag name, ordered unique-key attributes,
ordered children) or a text run.  The fixed `markdown` namespace carried by
every element in the Rust code is constant and is not modelled. -/
inductive XmlNode where
  | element (name : String) (attrs : List (String × String)) (children : List XmlNode)
  | text (t : String)

/-- Model of minidom `Element::attr`: the value stored for an attribute name. -/
def getAttr (attrs : List (String × String)) (name : String) : Option String :=
  (attrs.find? (fun p => p.1 == name)).map (fun p => p.2)

/-- Model of minidom `Element::text()`: the concatenation of the direct text
children of an element. -/
def xmlText (cs : List XmlNode) : String :=
  cs.foldl (fun acc x => match x with | .text t => acc ++ t | _ => acc) ""

/-! ### The Mapping Table encode helpers -/

/-- Alignment to attribute character (`xml_from_ast`, lines 266-276). -/
def alignChar : TableAlignment → Char
  | .unspec => '-'
  | .left => 'l'
  | .center => 'c'
  | .right => 'r'

/-- The `align` attribute string: one character per column in column order. -/
def alignStr (align : List TableAlignment) : String :=
  ⟨align.map alignChar⟩

/-- Attribute character back to alignment (`ast_from_xml`, lines 391-397):
any unexpected character decodes to the unspecified alignment. -/
def alignOfChar : Char → TableAlignment
  | 'l' => .left
  | 'c' => .center
  | 'r' => .right
  | _ => .unspec

/-- Decode of the `align` attribute string. -/
def alignFromStr (s : String) : List TableAlignment :=
  s.data.map alignOfChar

/-- The attribute list written for `List` and `Item` nodes
(`xml_from_ast`, lines 208-231), in source order. -/
def listItemAttrs (nl : NodeList) : List (String × String) :=
  [("type", if nl.list_type = .ordered then "o" else "u"),
   ("offset", Nat.repr nl.marker_offset),
   ("padding", Nat.repr nl.padding),
   ("start", Nat.repr nl.start),
   ("delimiter", if nl.delimiter = .period then "." else ")"),
   ("tight", if nl.tight then "1" else "0")]

/-! ### The Tree Projector: `xml_from_ast` (lines 192-343) -/

mutual

/-- Model of `xml_from_ast`: map the node value to an element (or text run)
with its attributes, then append the projections of the children in order.
`FrontMatter` and `CodeBlock` first append their literal payload as a text
child, exactly as the Rust builder does. -/
def xml_from_ast : AstNode → XmlNode
  | .mk v cs =>
    match v with
    | .document => .element "body" [] (xml_from_ast_list cs)
    | .frontMatter t => .element "header" [] (.text t :: xml_from_ast_list cs)
    | .blockQuote => .element "blockquote" [] (xml_from_ast_list cs)
    | .list nl =>
        .element (if nl.list_type = .ordered then "ol" else "ul") (listItemAttrs nl)
          (xml_from_ast_list cs)
    | .item nl => .element "li" (listItemAttrs nl) (xml_from_ast_list cs)
    | .descriptionList => .element "dl" [] (xml_from_ast_list cs)
    | .descriptionItem nd =>
        .element "di"
          [("offset", Nat.repr nd.marker_offset), ("padding", Nat.repr nd.padding)]
          (xml_from_ast_list cs)
    | .descriptionTerm => .element "dt" [] (xml_from_ast_list cs)
    | .descriptionDetails => .element "dd" [] (xml_from_ast_list cs)
    | .codeBlock cb =>
        .element "pre" [("info", cb.info)] (.text cb.literal :: xml_from_ast_list cs)
    | .htmlBlock hb =>
        .element "object"
          [("type", Nat.repr hb.block_type), ("literal", hb.literal)]
          (xml_from_ast_list cs)
    | .paragraph => .element "p" [] (xml_from_ast_list cs)
    | .heading hd =>
        .element ("h" ++ Nat.repr hd.level) [("level", Nat.repr hd.level)]
          (xml_from_ast_list cs)
    | .thematicBreak => .element "hr" [] (xml_from_ast_list cs)
    | .footnoteDefinition t => .element "footer" [("name", t)] (xml_from_ast_list cs)
    | .table align => .element "table" [("align", alignStr align)] (xml_from_ast_list cs)
    | .tableRow hdr => .element (if hdr then "th" else "tr") [] (xml_from_ast_list cs)
    | .tableCell => .element "td" [] (xml_from_ast_list cs)
    | .text t => .text t
    | .taskItem checked =>
        .element "input" [("checked", if checked then "1" else "0")] (xml_from_ast_list cs)
    | .softBreak => .element "wbr" [] (xml_from_ast_list cs)
    | .lineBreak => .element "br" [] (xml_from_ast_list cs)
    | .code c => .element "code" [("literal", c.literal)] (xml_from_ast_list cs)
    | .htmlInline t => .element "embed" [("literal", t)] (xml_from_ast_list cs)
    | .emph => .element "em" [] (xml_from_ast_list cs)
    | .strong => .element "strong" [] (xml_from_ast_list cs)
    | .strikethrough => .element "del" [] (xml_from_ast_list cs)
    | .superscript => .element "sup" [] (xml_from_ast_list cs)
    | .link u => .element "a" [("href", u.url), ("title", u.title)] (xml_from_ast_list cs)
    | .image u => .element "img" [("src", u.url), ("title", u.title)] (xml_from_ast_list cs)
    | .footnoteReference t => .element "sub" [("name", t)] (xml_from_ast_list cs)

/-- The children loop of `xml_from_ast` (lines 334-339). -/
def xml_from_ast_list : List AstNode → List XmlNode
  | [] => []
  | c :: cs => xml_from_ast c :: xml_from_ast_list cs

end

/-! ### The Tree Reconstructor: `ast_from_xml` (lines 346-455) -/

/-- Model of `node_list_from_xml` (lines 458-475).  Note that the Rust code
sets `delimiter` to `Period` and `bullet_char` to the dash character
unconditionally; the serialized `delimiter` attribute is never read. -/
def node_list_from_xml (attrs : List (String × String)) : NodeList :=
  { list_type := if getAttr attrs "type" = some "o" then .ordered else .bullet
    marker_offset := match getAttr attrs "offset" with
      | none => 0
      | some v => (parseUintIn USIZE v).getD 0
    padding := match getAttr attrs "padding" with
      | none => 0
      | some v => (parseUintIn USIZE v).getD 0
    start := match getAttr attrs "start" with
      | none => 0
      | some v => (parseUintIn USIZE v).getD 0
    delimiter := .period
    bullet_char := 45
    tight := getAttr attrs "tight" == some "1" }

/-- Numeric attribute decode `attr(name).map_or(0, parse().unwrap_or(0))`. -/
def numAttr (attrs : List (String × String)) (name : String) (bound : Nat) : Nat :=
  match getAttr attrs name with
  | none => 0
  | some v => (parseUintIn bound v).getD 0

/-- Heading level decode `attr("level").map_or(1, parse().unwrap_or(1))`
(`ast_from_xml`, line 381). -/
def levelAttr (attrs : List (String × String)) : Nat :=
  match getAttr attrs "level" with
  | none => 1
  | some v => (parseUintIn U32 v).getD 1

mutual

/-- Model of `ast_from_xml`.  The element case renders the Rust match on the
tag name as a sequential comparison chain in source order; an element with an
unrecognized tag becomes an empty text node (line 425) but its children are
still walked by the loop at lines 434-451.  The text case is the `Text` arm of
that child loop (lines 443-448).  A `none` result models the panic of
`xml_elm.attr("align").unwrap()` at line 390. -/
def ast_from_xml : XmlNode → Option AstNode
  | .text t => some (.mk (.text t) [])
  | .element n attrs cs =>
    if n = "body" then (ast_from_xml_list cs).map (fun l => .mk .document l)
    else if n = "header" then some (.mk (.frontMatter (xmlText cs)) [])
    else if n = "blockquote" then (ast_from_xml_list cs).map (fun l => .mk .blockQuote l)
    else if n = "ul" ∨ n = "ol" then
      (ast_from_xml_list cs).map (fun l => .mk (.list (node_list_from_xml attrs)) l)
    else if n = "li" then
      (ast_from_xml_list cs).map (fun l => .mk (.item (node_list_from_xml attrs)) l)
    else if n = "dl" then (ast_from_xml_list cs).map (fun l => .mk .descriptionList l)
    else if n = "di" then
      (ast_from_xml_list cs).map (fun l =>
        .mk (.descriptionItem
          { marker_offset := numAttr attrs "offset" USIZE
            padding := numAttr attrs "padding" USIZE }) l)
    else if n = "dt" then (ast_from_xml_list cs).map (fun l => .mk .descriptionTerm l)
    else if n = "dd" then (ast_from_xml_list cs).map (fun l => .mk .descriptionDetails l)
    else if n = "pre" then
      some (.mk (.codeBlock
        { fenced := true
          fence_char := 96
          fence_length := 3
          fence_offset := 0
          info := (getAttr attrs "info").getD ""
          literal := xmlText cs }) [])
    else if n = "object" then
      (ast_from_xml_list cs).map (fun l =>
        .mk (.htmlBlock
          { block_type := numAttr attrs "type" U8
            literal := (getAttr attrs "literal").getD "" }) l)
    else if n = "p" then (ast_from_xml_list cs).map (fun l => .mk .paragraph l)
    else if n = "h1" ∨ n = "h2" ∨ n = "h3" ∨ n = "h4" ∨ n = "h5" ∨ n = "h6" then
      (ast_from_xml_list cs).map (fun l =>
        .mk (.heading { level := levelAttr attrs, setext := false }) l)
    else if n = "hr" then (ast_from_xml_list cs).map (fun l => .mk .thematicBreak l)
    else if n = "footer" then
      (ast_from_xml_list cs).map (fun l =>
        .mk (.footnoteDefinition ((getAttr attrs "name").getD "")) l)
    else if n = "table" then
      match getAttr attrs "align" with
      | none => none
      | some a => (ast_from_xml_list cs).map (fun l => .mk (.table (alignFromStr a)) l)
    else if n = "th" then (ast_from_xml_list cs).map (fun l => .mk (.tableRow true) l)
    else if n = "tr" then (ast_from_xml_list cs).map (fun l => .mk (.tableRow false) l)
    else if n = "td" then (ast_from_xml_list cs).map (fun l => .mk .tableCell l)
    else if n = "input" then
      (ast_from_xml_list cs).map (fun l =>
        .mk (.taskItem (getAttr attrs "checked" == some "1")) l)
    else if n = "wbr" then (ast_from_xml_list cs).map (fun l => .mk .softBreak l)
    else if n = "br" then (ast_from_xml_list cs).map (fun l => .mk .lineBreak l)
    else if n = "code" then
      (ast_from_xml_list cs).map (fun l =>
        .mk (.code { num_backticks := 1, literal := (getAttr attrs "literal").getD "" }) l)
    else if n = "embed" then
      (ast_from_xml_list cs).map (fun l =>
        .mk (.htmlInline ((getAttr attrs "literal").getD "")) l)
    else if n = "em" then (ast_from_xml_list cs).map (fun l => .mk .emph l)
    else if n = "strong" then (ast_from_xml_list cs).map (fun l => .mk .strong l)
    else if n = "del" then (ast_from_xml_list cs).map (fun l => .mk .strikethrough l)
    else if n = "sup" then (ast_from_xml_list cs).map (fun l => .mk .superscript l)
    else if n = "a" then
      (ast_from_xml_list cs).map (fun l =>
        .mk (.link { url := (getAttr attrs "href").getD ""
                     title := (getAttr attrs "title").getD "" }) l)
    else if n = "img" then
      (ast_from_xml_list cs).map (fun l =>
        .mk (.image { url := (getAttr attrs "src").getD ""
                      title := (getAttr attrs "title").getD "" }) l)
    else if n = "sub" then
      (ast_from_xml_list cs).map (fun l =>
        .mk (.footnoteReference ((getAttr attrs "name").getD "")) l)
    else (ast_from_xml_list cs).map (fun l => .mk (.text "") l)

/-- The child loop of `ast_from_xml` (lines 434-451): element children recurse,
text children become text nodes; a failure (panic) in any child propagates. -/
def ast_from_xml_list : List XmlNode → Option (List AstNode)
  | [] => some []
  | x :: rest =>
    match ast_from_xml x, ast_from_xml_list rest with
    | some c, some r => some (c :: r)
    | _, _ => none

end

/-- The tag names recognized by the reconstructor's dispatch. -/
def knownTags : List String :=
  ["body", "header", "blockquote", "ul", "ol", "li", "dl", "di", "dt", "dd",
   "pre", "object", "p", "h1", "h2", "h3", "h4", "h5", "h6", "hr", "footer",
   "table", "th", "tr", "td", "input", "wbr", "br", "code", "embed", "em",
   "strong", "del", "sup", "a", "img", "sub"]

/-- Projection followed by reconstruction. -/
def xml_roundtrip (t : AstNode) : Option AstNode :=
  ast_from_xml (xml_from_ast t)

/-! ### Frontmatter splitting (lines 12-43) -/

/-- Model of `std::io::ErrorKind` restricted to the variant the crate uses. -/
inductive IoErrorKind where
  | unexpectedEof
deriving DecidableEq, Repr

/-- Model of Rust `str::splitn(3, delim)` collected into a list: at most two
splits at the leftmost occurrences of the delimiter, the final piece keeping
the rest of the input. -/
def splitn3 (delim s : List Char) : List (List Char) :=
  match splitOnceL delim s with
  | none => [s]
  | some (a, r) =>
    match splitOnceL delim r with
    | none => [a, r]
    | some (b, r2) => [a, b, r2]

/-- Model of `split_frontmatter` (lines 31-43): the first `splitn` piece (the
text before the opening delimiter) is discarded, the second is the frontmatter
and the third the CommonMark body; with fewer than three pieces the closing
delimiter is missing and the unexpected-end-of-file error is returned. -/
def split_frontmatter (filebody delimiter : List Char) :
    Except IoErrorKind (List Char × Option (List Char)) :=
  match splitn3 delimiter filebody with
  | [_, fm, body] => .ok (body, some fm)
  | _ => .error .unexpectedEof

/-- Model of `read_cmark_with_frontmatter` (lines 12-28) on the already-read
file contents (the `std::io::Read` plumbing is outside the model). -/
def read_cmark_with_frontmatter (buf : String) :
    Except IoErrorKind (String × Option String) :=
  if "+++".data.isPrefixOf buf.data then
    (split_frontmatter buf.data "+++".data).map fun pr =>
      (String.mk pr.1, pr.2.map (fun l => String.mk l))
  else if "---".data.isPrefixOf buf.data then
    (split_frontmatter buf.data "---".data).map fun pr =>
      (String.mk pr.1, pr.2.map (fun l => String.mk l))
  else
    .ok (buf, none)

/-! ## Theorems -/

/-! ### Basic facts about `splitOnceL` -/

theorem isPrefixOf_eq_true_iff {p h : List Char} : p.isPrefixOf h ↔ p <+: h :=
  List.isPrefixOf_iff_prefix

theorem infx_cons_iff {l₁ l₂ : List Char} {a : Char} :
    l₁ <:+: a :: l₂ ↔ l₁ <+: a :: l₂ ∨ l₁ <:+: l₂ :=
  List.infix_cons_iff

/-- A found split decomposes the haystack. -/
theorem splitOnceL_eq {p : List Char} :
    ∀ {h l r : List Char}, splitOnceL p h = some (l, r) → h = l ++ p ++ r := by
  intro h
  induction h with
  | nil =>
    intro l r hs
    unfold splitOnceL at hs
    split at hs
    · rename_i hpre
      have hp : p <+: ([] : List Char) := isPrefixOf_eq_true_iff.mp hpre
      have hpnil : p = [] := List.prefix_nil.mp hp
      simp only [Option.some.injEq, Prod.mk.injEq] at hs
      simp [hpnil, ← hs.1, ← hs.2]
    · simp at hs
  | cons c t ih =>
    intro l r hs
    unfold splitOnceL at hs
    split at hs
    · rename_i hpre
      obtain ⟨u, hu⟩ := isPrefixOf_eq_true_iff.mp hpre
      simp only [Option.some.injEq, Prod.mk.injEq] at hs
      have hr : r = u := by
        rw [← hs.2, ← hu, List.drop_left]
      rw [← hs.1, hr, List.nil_append, hu]
    · rcases hsp : splitOnceL p t with _ | ⟨l', r'⟩
      · simp [hsp] at hs
      · simp only [hsp, Option.map_some', Option.some.injEq, Prod.mk.injEq] at hs
        have ht := ih hsp
        rw [← hs.1, ← hs.2, ht]
        simp

/-- The text before a found split does not contain the pattern. -/
theorem splitOnceL_not_in_left {p : List Char} (hp : p ≠ []) :
    ∀ {h l r : List Char}, splitOnceL p h = some (l, r) → ¬ p <:+: l := by
  intro h
  induction h with
  | nil =>
    intro l r hs
    unfold splitOnceL at hs
    split at hs
    · rename_i hpre
      exact absurd (List.prefix_nil.mp (isPrefixOf_eq_true_iff.mp hpre)) hp
    · simp at hs
  | cons c t ih =>
    intro l r hs
    unfold splitOnceL at hs
    split at hs
    · simp only [Option.some.injEq, Prod.mk.injEq] at hs
      rw [← hs.1]
      intro hinf
      exact hp (List.infix_nil.mp hinf)
    · rename_i hpre
      rcases hsp : splitOnceL p t with _ | ⟨l', r'⟩
      · simp [hsp] at hs
      · simp only [hsp, Option.map_some', Option.some.injEq, Prod.mk.injEq] at hs
        rw [← hs.1]
        intro hinf
        rcases infx_cons_iff.mp hinf with hcase | hcase
        · -- a prefix of the left part is a prefix of the whole haystack
          have hlh : (c :: l') <+: (c :: t) := by
            refine ⟨p ++ r', ?_⟩
            have := splitOnceL_eq hsp
            simp [this]
          exact hpre (isPrefixOf_eq_true_iff.mpr (hcase.trans hlh))
        · exact ih hsp hcase

/-- `split_once` fails exactly when the pattern does not occur. -/
theorem splitOnceL_none_iff {p : List Char} :
    ∀ {h : List Char}, splitOnceL p h = none ↔ ¬ p <:+: h := by
  intro h
  induction h with
  | nil =>
    unfold splitOnceL
    split
    · rename_i hpre
      have hpnil : p = [] := List.prefix_nil.mp (isPrefixOf_eq_true_iff.mp hpre)
      simp [hpnil]
    · rename_i hpre
      have : p ≠ [] := by
        intro hp
        exact hpre (isPrefixOf_eq_true_iff.mpr (by simp [hp]))
      simp [List.infix_nil, this]
  | cons c t ih =>
    unfold splitOnceL
    split
    · rename_i hpre
      simp only [reduceCtorEq, false_iff, not_not]
      exact (isPrefixOf_eq_true_iff.mp hpre).isInfix
    · rename_i hpre
      constructor
      · intro hnone hinf
        rcases infx_cons_iff.mp hinf with hcase | hcase
        · exact hpre (isPrefixOf_eq_true_iff.mpr hcase)
        · have hsp : splitOnceL p t = none := by
            rcases hsp : splitOnceL p t with _ | pr
            · rfl
            · simp [hsp] at hnone
          exact (ih.mp hsp) hcase
      · intro hni
        have hnit : ¬ p <:+: t := fun hx => hni (infx_cons_iff.mpr (Or.inr hx))
        simp [ih.mpr hnit]

/-- Case split for a prefix of an append. -/
theorem pfx_append_cases {p u v : List Char} (h : p <+: u ++ v) :
    p <+: u ∨ (u <+: p ∧ p.drop u.length <+: v) := by
  obtain ⟨t, ht⟩ := h
  rcases List.append_eq_append_iff.mp ht with ⟨a, ha1, ha2⟩ | ⟨c, hc1, hc2⟩
  · exact Or.inl ⟨a, ha1.symm⟩
  · refine Or.inr ⟨⟨c, hc1.symm⟩, ?_⟩
    have hdrop : p.drop u.length = c := by rw [hc1, List.drop_left]
    exact hdrop ▸ ⟨t, hc2.symm⟩

/-- A short enough prefix of an append is a prefix of the first part. -/
theorem pfx_of_append_of_le {p u v : List Char} (h : p <+: u ++ v)
    (hl : p.length ≤ u.length) : p <+: u := by
  rcases pfx_append_cases h with hc | ⟨hc, _⟩
  · exact hc
  · have : u = p := hc.eq_of_length (Nat.le_antisymm (hc.length_le) hl)
    simp [this]

/-- For a border-free pattern, `split_once` finds an explicitly placed
occurrence that is preceded by pattern-free text. -/
theorem splitOnceL_exact {p r : List Char} (hb : brdFree p) :
    ∀ {l : List Char}, ¬ p <:+: l → splitOnceL p (l ++ p ++ r) = some (l, r) := by
  intro l
  induction l with
  | nil =>
    intro _
    unfold splitOnceL
    rw [if_pos (isPrefixOf_eq_true_iff.mpr (by exact ⟨r, by simp⟩))]
    simp [List.drop_left]
  | cons c t ih =>
    intro hni
    have hnit : ¬ p <:+: t := fun hx => hni (infx_cons_iff.mpr (Or.inr hx))
    unfold splitOnceL
    rw [if_neg ?_]
    · have hrec := ih hnit
      rw [List.append_assoc] at hrec
      simp only [List.cons_append]
      simp [hrec]
    · intro hpre
      have hpre' : p <+: (c :: t) ++ (p ++ r) := by
        have hx := isPrefixOf_eq_true_iff.mp hpre
        rw [List.append_assoc] at hx
        exact hx
      rcases pfx_append_cases hpre' with hc | ⟨hc, hdrop⟩
      · exact hni hc.isInfix
      · rcases Nat.lt_or_ge (c :: t).length p.length with hlen | hlen
        · have hdrop' : p.drop (c :: t).length <+: p :=
            pfx_of_append_of_le hdrop (by simp)
          exact hb (c :: t).length hlen (by simp) hdrop'
        · have : c :: t = p := hc.eq_of_length (Nat.le_antisymm hc.length_le hlen)
          exact hni (this ▸ List.infix_refl p)

/-- Case analysis for an occurrence inside an append: inside the left part,
inside the right part, or straddling the junction. -/
theorem infix_append_cases {q u v : List Char} (h : q <:+: u ++ v) :
    q <:+: u ∨ q <:+: v ∨
      ∃ k, 0 < k ∧ k < q.length ∧ q.take k <:+ u ∧ q.drop k <+: v := by
  obtain ⟨a, b, hab⟩ := h
  have hab' : a ++ (q ++ b) = u ++ v := by simpa [List.append_assoc] using hab
  rcases List.append_eq_append_iff.mp hab' with ⟨w, hw1, hw2⟩ | ⟨w, hw1, hw2⟩
  · -- u = a ++ w and q ++ b = w ++ v
    rcases List.append_eq_append_iff.mp hw2 with ⟨w2, hx1, hx2⟩ | ⟨w2, hx1, hx2⟩
    · -- w = q ++ w2 : the occurrence is inside u
      exact Or.inl ⟨a, w2, by rw [hw1, hx1]; simp [List.append_assoc]⟩
    · -- q = w ++ w2 and v = w2 ++ b : junction or degenerate
      by_cases hwnil : w = []
      · subst hwnil
        simp only [List.nil_append] at hx1
        refine Or.inr (Or.inl ⟨[], b, ?_⟩)
        rw [hx2, hx1]
        simp
      · by_cases hw2nil : w2 = []
        · subst hw2nil
          simp only [List.append_nil] at hx1
          refine Or.inl ⟨a, [], ?_⟩
          rw [hw1, hx1]
          simp
        · refine Or.inr (Or.inr ⟨w.length, List.length_pos.mpr hwnil, ?_, ?_, ?_⟩)
          · rw [hx1]
            simp only [List.length_append]
            have := List.length_pos.mpr hw2nil
            omega
          · rw [hx1, List.take_left]
            exact ⟨a, hw1.symm⟩
          · rw [hx1, List.drop_left]
            exact ⟨b, hx2.symm⟩
  · -- a = u ++ w and v = w ++ (q ++ b) : the occurrence is inside v
    exact Or.inr (Or.inl ⟨w, b, by rw [hw2]; simp [List.append_assoc]⟩)

/-- Combinator to refute an occurrence in an append piece by piece. -/
theorem not_infix_append {q u v : List Char}
    (h1 : ¬ q <:+: u) (h2 : ¬ q <:+: v)
    (h3 : ∀ k, 0 < k → k < q.length → ¬ (q.take k <:+ u) ∨ ¬ (q.drop k <+: v)) :
    ¬ q <:+: u ++ v := by
  intro h
  rcases infix_append_cases h with hc | hc | ⟨k, hk1, hk2, hk3, hk4⟩
  · exact h1 hc
  · exact h2 hc
  · rcases h3 k hk1 hk2 with hx | hx
    · exact hx hk3
    · exact hx hk4

/-! ### The scanning passes: fuel irrelevance and unfolding lemmas -/

/-- The fuel does not matter as long as it exceeds the input length. -/
theorem scanGo_congr {opn cls pre post : List Char} (hop : opn ≠ []) :
    ∀ {f1 : Nat} {s : List Char} {f2 : Nat}, s.length < f1 → s.length < f2 →
      scanGo opn cls pre post f1 s = scanGo opn cls pre post f2 s := by
  intro f1
  induction f1 with
  | zero => intro s f2 h1 _; omega
  | succ a ih =>
    intro s f2 h1 h2
    rcases f2 with _ | b
    · omega
    · unfold scanGo
      rcases hs1 : splitOnceL opn s with _ | ⟨l, r⟩
      · simp [hs1]
      · rcases hs2 : splitOnceL cls r with _ | ⟨sc, rest⟩
        · simp [hs1, hs2]
        · simp only [hs1, hs2]
          have e1 := splitOnceL_eq hs1
          have e2 := splitOnceL_eq hs2
          have hlo : 0 < opn.length := List.length_pos.mpr hop
          have hrest : rest.length < s.length := by
            rw [e1, e2]
            simp only [List.length_append]
            omega
          rw [ih (show rest.length < a by omega) (show rest.length < b by omega)]

/-- A pass leaves an input without the opening marker unchanged. -/
theorem scanReplace_of_none {opn cls pre post s : List Char} (h : ¬ opn <:+: s) :
    scanReplace opn cls pre post s = s := by
  unfold scanReplace scanGo
  simp [splitOnceL_none_iff.mpr h]

/-- Unfolding of one loop iteration in the matched case. -/
theorem scanReplace_step {opn cls pre post : List Char} (hop : opn ≠ [])
    {s l r sc rest : List Char}
    (h1 : splitOnceL opn s = some (l, r)) (h2 : splitOnceL cls r = some (sc, rest)) :
    scanReplace opn cls pre post s =
      l ++ pre ++ sc ++ post ++ scanReplace opn cls pre post rest := by
  have e1 := splitOnceL_eq h1
  have e2 := splitOnceL_eq h2
  have hlo : 0 < opn.length := List.length_pos.mpr hop
  have hrest : rest.length < s.length := by
    rw [e1, e2]
    simp only [List.length_append]
    omega
  unfold scanReplace
  conv_lhs => rw [scanGo]
  simp only [h1, h2]
  rw [scanGo_congr hop (show rest.length < s.length from hrest) (Nat.lt_succ_self _)]

/-- Unfolding of the swallow-to-EOF branch. -/
theorem scanReplace_eof {opn cls pre post : List Char}
    {s l r : List Char}
    (h1 : splitOnceL opn s = some (l, r)) (h2 : splitOnceL cls r = none) :
    scanReplace opn cls pre post s = l ++ pre ++ r ++ post := by
  unfold scanReplace
  conv_lhs => rw [scanGo]
  simp [h1, h2]

/-- Fuel irrelevance for the matched-markers check. -/
theorem allMatchedGo_congr {opn cls : List Char} (hop : opn ≠ []) :
    ∀ {f1 : Nat} {s : List Char} {f2 : Nat}, s.length < f1 → s.length < f2 →
      allMatchedGo opn cls f1 s = allMatchedGo opn cls f2 s := by
  intro f1
  induction f1 with
  | zero => intro s f2 h1 _; omega
  | succ a ih =>
    intro s f2 h1 h2
    rcases f2 with _ | b
    · omega
    · unfold allMatchedGo
      rcases hs1 : splitOnceL opn s with _ | ⟨l, r⟩
      · simp [hs1]
      · rcases hs2 : splitOnceL cls r with _ | ⟨sc, rest⟩
        · simp [hs1, hs2]
        · simp only [hs1, hs2]
          have e1 := splitOnceL_eq hs1
          have e2 := splitOnceL_eq hs2
          have hlo : 0 < opn.length := List.length_pos.mpr hop
          have hrest : rest.length < s.length := by
            rw [e1, e2]
            simp only [List.length_append]
            omega
          rw [ih (show rest.length < a by omega) (show rest.length < b by omega)]

/-- In the matched case the check proceeds to the rest of the input. -/
theorem allMatched_step {opn cls : List Char} (hop : opn ≠ [])
    {s l r sc rest : List Char}
    (h1 : splitOnceL opn s = some (l, r)) (h2 : splitOnceL cls r = some (sc, rest)) :
    allMatched opn cls s = allMatched opn cls rest := by
  have e1 := splitOnceL_eq h1
  have e2 := splitOnceL_eq h2
  have hlo : 0 < opn.length := List.length_pos.mpr hop
  have hrest : rest.length < s.length := by
    rw [e1, e2]
    simp only [List.length_append]
    omega
  unfold allMatched
  conv_lhs => rw [allMatchedGo]
  simp only [h1, h2]
  rw [allMatchedGo_congr hop (show rest.length < s.length from hrest) (Nat.lt_succ_self _)]

/-- An opening marker without a closer fails the check. -/
theorem allMatched_eof {opn cls : List Char} {s l r : List Char}
    (h1 : splitOnceL opn s = some (l, r)) (h2 : splitOnceL cls r = none) :
    allMatched opn cls s = false := by
  unfold allMatched
  conv_lhs => rw [allMatchedGo]
  simp [h1, h2]

/-! ### The pass inverse theorem -/

/-- A restoring pass (searching `pre`/`post` and emitting `opn`/`cls`) undoes
an escaping pass (searching `opn`/`cls` and emitting `pre`/`post`), provided
the wrappers `pre` and `post` are border free, contain their respective
markers, do not occur in the input, and every opening marker processed by the
escaping pass is matched. -/
theorem scan_unscan {opn cls pre post : List Char}
    (hop : opn ≠ []) (hcl : cls ≠ [])
    (hbp : brdFree pre) (hbq : brdFree post)
    (hopre : opn <:+: pre) (hclpost : cls <:+: post) :
    ∀ {s : List Char}, ¬ pre <:+: s → ¬ post <:+: s → allMatched opn cls s = true →
      scanReplace pre post opn cls (scanReplace opn cls pre post s) = s := by
  have hpre_ne : pre ≠ [] := by
    intro h
    exact hop (List.infix_nil.mp (h ▸ hopre))
  have hpost_ne : post ≠ [] := by
    intro h
    exact hcl (List.infix_nil.mp (h ▸ hclpost))
  suffices H : ∀ n : Nat, ∀ s : List Char, s.length ≤ n →
      ¬ pre <:+: s → ¬ post <:+: s → allMatched opn cls s = true →
      scanReplace pre post opn cls (scanReplace opn cls pre post s) = s by
    intro s h1 h2 h3
    exact H s.length s le_rfl h1 h2 h3
  intro n
  induction n with
  | zero =>
    intro s hlen h1 h2 _
    have hs : s = [] := List.length_eq_zero.mp (Nat.le_zero.mp hlen)
    subst hs
    have hnone : ¬ opn <:+: ([] : List Char) := by
      simp [List.infix_nil, hop]
    rw [scanReplace_of_none hnone, scanReplace_of_none h1]
  | succ k ih =>
    intro s hlen h1 h2 h3
    rcases hs1 : splitOnceL opn s with _ | ⟨l, r⟩
    · rw [scanReplace_of_none (splitOnceL_none_iff.mp hs1), scanReplace_of_none h1]
    · rcases hs2 : splitOnceL cls r with _ | ⟨sc, rest⟩
      · rw [allMatched_eof hs1 hs2] at h3
        exact absurd h3 (by simp)
      · have e1 := splitOnceL_eq hs1
        have e2 := splitOnceL_eq hs2
        have hlo : 0 < opn.length := List.length_pos.mpr hop
        have hlc : 0 < cls.length := List.length_pos.mpr hcl
        have hxdecomp : s = l ++ opn ++ sc ++ cls ++ rest := by
          rw [e1, e2]
          simp [List.append_assoc]
        have hrest : rest.length < s.length := by
          rw [hxdecomp]
          simp only [List.length_append]
          omega
        -- the pieces are infixes of s
        have hl_inf : l <:+: s := ⟨[], opn ++ sc ++ cls ++ rest, by
          rw [hxdecomp]; simp [List.append_assoc]⟩
        have hsc_inf : sc <:+: s := ⟨l ++ opn, cls ++ rest, by
          rw [hxdecomp]; simp [List.append_assoc]⟩
        have hrest_inf : rest <:+: s := ⟨l ++ opn ++ sc ++ cls, [], by
          rw [hxdecomp]; simp [List.append_assoc]⟩
        have hprel : ¬ pre <:+: l := fun hx => h1 (hx.trans hl_inf)
        have hclsc : ¬ cls <:+: sc := splitOnceL_not_in_left hcl hs2
        have hpostsc : ¬ post <:+: sc := fun hx => hclsc (hclpost.trans hx)
        -- the inductive hypothesis applies to the rest
        have ihr := ih rest (by omega) (fun hx => h1 (hx.trans hrest_inf))
          (fun hx => h2 (hx.trans hrest_inf))
          (by rw [← allMatched_step hop hs1 hs2]; exact h3)
        -- unfold the escaping pass, then the restoring pass
        rw [scanReplace_step hop hs1 hs2]
        have h1' : splitOnceL pre
            (l ++ pre ++ (sc ++ post ++ scanReplace opn cls pre post rest)) =
            some (l, sc ++ post ++ scanReplace opn cls pre post rest) :=
          splitOnceL_exact hbp hprel
        have h2' : splitOnceL post (sc ++ post ++ scanReplace opn cls pre post rest) =
            some (sc, scanReplace opn cls pre post rest) :=
          splitOnceL_exact hbq hpostsc
        have h1'' : splitOnceL pre
            (l ++ pre ++ sc ++ post ++ scanReplace opn cls pre post rest) =
            some (l, sc ++ post ++ scanReplace opn cls pre post rest) := by
          rw [show l ++ pre ++ sc ++ post ++ scanReplace opn cls pre post rest =
            l ++ pre ++ (sc ++ post ++ scanReplace opn cls pre post rest) by
              simp [List.append_assoc]]
          exact h1'
        rw [scanReplace_step hpre_ne h1'' h2', ihr]
        rw [hxdecomp]

/-! ### Junction combinators for occurrence refutation -/

/-- Refute an occurrence in `w ++ v` when no nontrivial prefix of the pattern
is a suffix of the concrete left part `w`. -/
theorem not_infix_append_left_c {q w v : List Char}
    (hw : ¬ q <:+: w) (hv : ¬ q <:+: v)
    (hdec : ∀ k, k < q.length → 0 < k → ¬ (q.take k <:+ w)) :
    ¬ q <:+: w ++ v :=
  not_infix_append hw hv (fun k hk1 hk2 => Or.inl (hdec k hk2 hk1))

/-- Refute an occurrence in `u ++ (w ++ z)` when no nontrivial suffix of the
pattern is a prefix of the concrete middle part `w` and the pattern is not
longer than `w` plus one character. -/
theorem not_infix_append_right_c {q u w z : List Char}
    (hu : ¬ q <:+: u) (hv : ¬ q <:+: w ++ z)
    (hqw : q.length ≤ w.length + 1)
    (hdec : ∀ k, k < q.length → 0 < k → ¬ (q.drop k <+: w)) :
    ¬ q <:+: u ++ (w ++ z) :=
  not_infix_append hu hv (fun k hk1 hk2 => Or.inr (fun hdrop =>
    hdec k hk2 hk1 (pfx_of_append_of_le hdrop (by
      simp only [List.length_drop]
      omega))))

/-- Refute an occurrence in `u ++ w` with a concrete right end. -/
theorem not_infix_append_end_c {q u w : List Char}
    (hu : ¬ q <:+: u) (hw : ¬ q <:+: w)
    (hdec : ∀ k, k < q.length → 0 < k → ¬ (q.drop k <+: w)) :
    ¬ q <:+: u ++ w :=
  not_infix_append hu hw (fun k hk1 hk2 => Or.inr (fun hdrop => hdec k hk2 hk1 hdrop))

/-! ### Pass 1 does not manufacture percent-shortcode wrappers -/

/-- The percent-wrapper opener cannot occur in a brace-wrapped block whose
surrounding pieces are free of it. -/
theorem wo2_wrap {l m t : List Char}
    (hl : ¬ wOpen2 <:+: l) (hm : ¬ wOpen2 <:+: m) (ht : ¬ wOpen2 <:+: t) :
    ¬ wOpen2 <:+: l ++ (wOpen1 ++ (m ++ (wClose1 ++ t))) := by
  refine not_infix_append_right_c hl ?_ (by decide) (by decide)
  refine not_infix_append_left_c (by decide) ?_ (by decide)
  refine not_infix_append_right_c hm ?_ (by decide) (by decide)
  exact not_infix_append_left_c (by decide) ht (by decide)

/-- The percent-wrapper closer cannot occur in a brace-wrapped block whose
surrounding pieces are free of it. -/
theorem wc2_wrap {l m t : List Char}
    (hl : ¬ wClose2 <:+: l) (hm : ¬ wClose2 <:+: m) (ht : ¬ wClose2 <:+: t) :
    ¬ wClose2 <:+: l ++ (wOpen1 ++ (m ++ (wClose1 ++ t))) := by
  refine not_infix_append_right_c hl ?_ (by decide) (by decide)
  refine not_infix_append_left_c (by decide) ?_ (by decide)
  refine not_infix_append_right_c hm ?_ (by decide) (by decide)
  exact not_infix_append_left_c (by decide) ht (by decide)

/-- The first escaping pass preserves the absence of the two percent-disguise
substrings. -/
theorem escapePass1_no_w2 :
    ∀ {x : List Char}, ¬ wOpen2 <:+: x → ¬ wClose2 <:+: x →
      ¬ wOpen2 <:+: escapePass1 x ∧ ¬ wClose2 <:+: escapePass1 x := by
  suffices H : ∀ n : Nat, ∀ x : List Char, x.length ≤ n →
      ¬ wOpen2 <:+: x → ¬ wClose2 <:+: x →
      ¬ wOpen2 <:+: escapePass1 x ∧ ¬ wClose2 <:+: escapePass1 x by
    intro x h3 h4
    exact H x.length x le_rfl h3 h4
  intro n
  induction n with
  | zero =>
    intro x hlen h3 h4
    have hx : x = [] := List.length_eq_zero.mp (Nat.le_zero.mp hlen)
    subst hx
    rw [show escapePass1 ([] : List Char) = [] from rfl]
    exact ⟨h3, h4⟩
  | succ k ih =>
    intro x hlen h3 h4
    rcases hs1 : splitOnceL mOpen1 x with _ | ⟨l, r⟩
    · unfold escapePass1
      rw [scanReplace_of_none (splitOnceL_none_iff.mp hs1)]
      exact ⟨h3, h4⟩
    · have e1 := splitOnceL_eq hs1
      rcases hs2 : splitOnceL mClose1 r with _ | ⟨sc, rest⟩
      · -- the swallow-to-EOF branch wraps the whole tail
        unfold escapePass1
        rw [scanReplace_eof hs1 hs2]
        have hl_inf : l <:+: x := ⟨[], mOpen1 ++ r, by rw [e1]; simp [List.append_assoc]⟩
        have hr_inf : r <:+: x := ⟨l ++ mOpen1, [], by rw [e1]; simp [List.append_assoc]⟩
        constructor
        · have := wo2_wrap (fun hx => h3 (hx.trans hl_inf))
            (fun hx => h3 (hx.trans hr_inf)) (by decide : ¬ wOpen2 <:+: ([] : List Char))
          simpa [List.append_assoc] using this
        · have := wc2_wrap (fun hx => h4 (hx.trans hl_inf))
            (fun hx => h4 (hx.trans hr_inf)) (by decide : ¬ wClose2 <:+: ([] : List Char))
          simpa [List.append_assoc] using this
      · have e2 := splitOnceL_eq hs2
        unfold escapePass1
        rw [scanReplace_step (by decide) hs1 hs2]
        have hxdecomp : x = l ++ mOpen1 ++ sc ++ mClose1 ++ rest := by
          rw [e1, e2]
          simp [List.append_assoc]
        have hlopn : mOpen1.length = 2 := rfl
        have hlcls : mClose1.length = 2 := rfl
        have hrest : rest.length < x.length := by
          rw [hxdecomp]
          simp only [List.length_append]
          omega
        have hl_inf : l <:+: x := ⟨[], mOpen1 ++ sc ++ mClose1 ++ rest, by
          rw [hxdecomp]; simp [List.append_assoc]⟩
        have hsc_inf : sc <:+: x := ⟨l ++ mOpen1, mClose1 ++ rest, by
          rw [hxdecomp]; simp [List.append_assoc]⟩
        have hrest_inf : rest <:+: x := ⟨l ++ mOpen1 ++ sc ++ mClose1, [], by
          rw [hxdecomp]; simp [List.append_assoc]⟩
        have ihr := ih rest (by omega) (fun hx => h3 (hx.trans hrest_inf))
          (fun hx => h4 (hx.trans hrest_inf))
        unfold escapePass1 at ihr
        constructor
        · have := wo2_wrap (fun hx => h3 (hx.trans hl_inf))
            (fun hx => h3 (hx.trans hsc_inf)) ihr.1
          simpa [List.append_assoc] using this
        · have := wc2_wrap (fun hx => h4 (hx.trans hl_inf))
            (fun hx => h4 (hx.trans hsc_inf)) ihr.2
          simpa [List.append_assoc] using this

/-! ### Claim C2 -/

/-- Claim C2 as stated is false: the two-character input consisting of the
opening brace marker alone contains none of the four disguise substrings, yet
unescape of escape of it yields the marker with an appended closing marker
(the swallow-to-EOF branch wraps the empty tail and unescaping materializes a
closing brace pair that was not in the input). -/
theorem claim_C2_counterexample :
    (¬ wOpen1 <:+: ("\x7b\x7b" : String).data) ∧
    (¬ wClose1 <:+: ("\x7b\x7b" : String).data) ∧
    (¬ wOpen2 <:+: ("\x7b\x7b" : String).data) ∧
    (¬ wClose2 <:+: ("\x7b\x7b" : String).data) ∧
    unescape_all_shortcodes (escape_all_shortcodes "\x7b\x7b") ≠ "\x7b\x7b" :=
  ⟨by decide, by decide, by decide, by decide, by decide⟩

/-- C2 (amended): for every input that contains none of the four disguise
substrings, in which the brace-escaping pass finds a closing brace marker for
every opening brace marker it processes, and the percent-escaping pass (which
runs on the output of the brace pass) finds a closing percent marker for every
opening percent marker it processes, unescape of escape is the identity. -/
theorem claim_C2_amended (s : String)
    (h1 : ¬ wOpen1 <:+: s.data) (h2 : ¬ wClose1 <:+: s.data)
    (h3 : ¬ wOpen2 <:+: s.data) (h4 : ¬ wClose2 <:+: s.data)
    (h5 : allMatched mOpen1 mClose1 s.data = true)
    (h6 : allMatched mOpen2 mClose2 (escapePass1 s.data) = true) :
    unescape_all_shortcodes (escape_all_shortcodes s) = s := by
  have hw := escapePass1_no_w2 h3 h4
  have e2 : unescapePass1 (escapePass2 (escapePass1 s.data)) = escapePass1 s.data :=
    scan_unscan (by decide) (by decide) (by unfold brdFree; decide)
      (by unfold brdFree; decide) (by decide) (by decide) hw.1 hw.2 h6
  have e1 : unescapePass2 (escapePass1 s.data) = s.data :=
    scan_unscan (by decide) (by decide) (by unfold brdFree; decide)
      (by unfold brdFree; decide) (by decide) (by decide) h1 h2 h5
  calc unescape_all_shortcodes (escape_all_shortcodes s)
      = ⟨unescapePass2 (unescapePass1 (escapePass2 (escapePass1 s.data)))⟩ := rfl
    _ = ⟨unescapePass2 (escapePass1 s.data)⟩ := by rw [e2]
    _ = ⟨s.data⟩ := by rw [e1]
    _ = s := rfl

/-- Witness for C2 (amended) at the documentation example input. -/
theorem claim_C2_amended_witness :
    unescape_all_shortcodes
        (escape_all_shortcodes "See \x7b\x7b shortcode a \x7d\x7d and \x7b% tag b %\x7d here.") =
      "See \x7b\x7b shortcode a \x7d\x7d and \x7b% tag b %\x7d here." :=
  claim_C2_amended _ (by decide) (by decide) (by decide) (by decide) (by decide) (by decide)

/-! ### Claim C8 -/

/-- Claim C8 as stated is false: unescaping the escaped form of the
unterminated input does not restore the input (the closing braces are
materialized). -/
theorem claim_C8_counterexample :
    unescape_all_shortcodes (escape_all_shortcodes "pre\x66ix \x7b\x7b oops") ≠
      "pre\x66ix \x7b\x7b oops" := by
  decide

/-- C8 (amended): the unterminated input escapes exactly as the claim states,
but unescaping that result yields the input with a closing brace marker
appended, not the original input. -/
theorem claim_C8_amended :
    escape_all_shortcodes "pre\x66ix \x7b\x7b oops" =
      "pre\x66ix <!--\x7b\x7b oops\x7d\x7d-->" ∧
    unescape_all_shortcodes "pre\x66ix <!--\x7b\x7b oops\x7d\x7d-->" =
      "pre\x66ix \x7b\x7b oops\x7d\x7d" :=
  ⟨by decide, by decide⟩

/-! ### Claim C7: table alignment round trip -/

theorem alignOfChar_alignChar (a : TableAlignment) : alignOfChar (alignChar a) = a := by
  cases a <;> rfl

theorem alignFromStr_alignStr (l : List TableAlignment) :
    alignFromStr (alignStr l) = l := by
  induction l with
  | nil => rfl
  | cons a t ih =>
    show alignOfChar (alignChar a) :: (t.map alignChar).map alignOfChar = a :: t
    rw [alignOfChar_alignChar]
    exact congrArg _ ih

/-- C7: for every alignment sequence of length at most six, encoding into the
one-character-per-column align attribute string and decoding it back
reproduces the original sequence (the proof does not need the length bound,
which is kept from the claim). -/
theorem claim_C7 (l : List TableAlignment) (_h : l.length ≤ 6) :
    alignFromStr (alignStr l) = l :=
  alignFromStr_alignStr l

/-- Witness for C7 at a concrete six-column sequence. -/
theorem claim_C7_witness :
    alignFromStr (alignStr [.left, .center, .right, .unspec, .left, .center]) =
      [.left, .center, .right, .unspec, .left, .center] :=
  claim_C7 _ (by decide)

/-! ### Claim C4: the List delimiter does not survive the round trip -/

/-- C4: the claimed List round trip fails on the delimiter field.  Projecting
the exact node of the claim (ordered, offset 2, padding 3, start 5, delimiter
paren, tight) and reconstructing yields the same node with delimiter period:
`node_list_from_xml` ignores the serialized delimiter attribute and hardcodes
`Period`. -/
theorem claim_C4_bug :
    xml_roundtrip (.mk (.list ⟨.ordered, 2, 3, 5, .paren, 45, true⟩) []) =
      some (.mk (.list ⟨.ordered, 2, 3, 5, .period, 45, true⟩) []) ∧
    AstNode.mk (.list ⟨.ordered, 2, 3, 5, .period, 45, true⟩) [] ≠
      .mk (.list ⟨.ordered, 2, 3, 5, .paren, 45, true⟩) [] :=
  ⟨rfl, by simp⟩

/-! ### Claim C1: the general round trip fails on the same delimiter field -/

/-- C1: the round-trip invariant fails for a parser-producible tree.  The tree
of the ordered list written with a closing parenthesis (markdown such as
one-paren item) projects with a delimiter attribute of a parenthesis, but
reconstructs with delimiter period in both the List and the Item node, so the
reconstructed tree differs from the original in a Mapping-Table attribute. -/
theorem claim_C1_bug :
    xml_roundtrip
        (.mk .document [.mk (.list ⟨.ordered, 0, 2, 1, .paren, 45, true⟩)
          [.mk (.item ⟨.ordered, 0, 2, 1, .paren, 45, true⟩)
            [.mk .paragraph [.mk (.text "a") []]]]]) =
      some (.mk .document [.mk (.list ⟨.ordered, 0, 2, 1, .period, 45, true⟩)
          [.mk (.item ⟨.ordered, 0, 2, 1, .period, 45, true⟩)
            [.mk .paragraph [.mk (.text "a") []]]]]) ∧
    AstNode.mk .document [.mk (.list ⟨.ordered, 0, 2, 1, .period, 45, true⟩)
          [.mk (.item ⟨.ordered, 0, 2, 1, .period, 45, true⟩)
            [.mk .paragraph [.mk (.text "a") []]]]] ≠
      .mk .document [.mk (.list ⟨.ordered, 0, 2, 1, .paren, 45, true⟩)
          [.mk (.item ⟨.ordered, 0, 2, 1, .paren, 45, true⟩)
            [.mk .paragraph [.mk (.text "a") []]]]] :=
  ⟨rfl, by simp⟩

/-! ### Claim C6: a table element without an align attribute panics -/

/-- C6: reconstructing a table element whose align attribute is absent does
not succeed by defaulting; it hits `attr("align").unwrap()` and panics
(modelled by `none`).  With the attribute present the decode succeeds. -/
theorem claim_C6_bug :
    ast_from_xml (.element "table" [] []) = none ∧
    ast_from_xml (.element "table" [("align", "lc")] []) =
      some (.mk (.table [.left, .center]) []) :=
  ⟨rfl, rfl⟩

/-! ### Claim C3: unknown tags -/

/-- C3 as stated is false: the reconstructor does descend into the children of
an element with an unrecognized tag.  Reconstructing a foobar element with a
paragraph child yields an empty text node that carries the reconstructed
paragraph as a child, not a childless empty text node. -/
theorem claim_C3_counterexample :
    ast_from_xml (.element "foobar" [("a", "b")] [.element "p" [] []]) =
      some (.mk (.text "") [.mk .paragraph []]) ∧
    AstNode.mk (.text "") [.mk .paragraph []] ≠ .mk (.text "") [] :=
  ⟨rfl, by simp⟩

/-- C3 (amended): reconstructing an element whose tag is not in the Mapping
Table vocabulary yields an empty text node, but the reconstructor still walks
the children and appends their reconstructions to it; with no children the
result is exactly one empty text node, and the reconstruction fails only where
a child fails. -/
theorem claim_C3_amended (n : String) (attrs : List (String × String))
    (cs : List XmlNode) (h : ¬ n ∈ knownTags) :
    ast_from_xml (.element n attrs cs) =
      (ast_from_xml_list cs).map (fun l => .mk (.text "") l) := by
  simp only [knownTags, List.mem_cons, List.not_mem_nil, or_false, not_or] at h
  obtain ⟨h1, h2, h3, h4, h5, h6, h7, h8, h9, h10, h11, h12, h13, h14, h15, h16,
    h17, h18, h19, h20, h21, h22, h23, h24, h25, h26, h27, h28, h29, h30, h31,
    h32, h33, h34, h35, h36, h37⟩ := h
  unfold ast_from_xml
  simp only [h1, h2, h3, h4, h5, h6, h7, h8, h9, h10, h11, h12, h13, h14, h15,
    h16, h17, h18, h19, h20, h21, h22, h23, h24, h25, h26, h27, h28, h29, h30,
    h31, h32, h33, h34, h35, h36, h37, or_self, if_false]

/-- Witness for C3 (amended) at a concrete unknown tag with a text child. -/
theorem claim_C3_amended_witness :
    ast_from_xml (.element "foobar" [("x", "y")] [.text "hi"]) =
      some (.mk (.text "") [.mk (.text "hi") []]) := by
  rw [claim_C3_amended "foobar" [("x", "y")] [.text "hi"] (by decide)]
  rfl

/-! ### Claim C5: decode defaults -/

/-- C5 as stated is false for the heading level: a heading element without a
level attribute decodes to level one, not to the claimed default zero. -/
theorem claim_C5_counterexample :
    ast_from_xml (.element "h2" [] []) = some (.mk (.heading ⟨1, false⟩) []) ∧
    AstNode.mk (.heading ⟨1, false⟩) [] ≠ .mk (.heading ⟨0, false⟩) [] :=
  ⟨rfl, by simp⟩

/-- C5 (amended): during reconstruction a missing or unparseable numeric
attribute defaults to zero for offset, padding, start and the object type,
while the heading level defaults to one; a boolean attribute (tight, checked)
decodes to true exactly when its value is the string consisting of the digit
one, false otherwise including absence. -/
theorem claim_C5_amended (attrs : List (String × String)) (v : String) :
    (getAttr attrs "offset" = none → (node_list_from_xml attrs).marker_offset = 0) ∧
    (getAttr attrs "offset" = some v → parseUintIn USIZE v = none →
      (node_list_from_xml attrs).marker_offset = 0) ∧
    (getAttr attrs "padding" = none → (node_list_from_xml attrs).padding = 0) ∧
    (getAttr attrs "padding" = some v → parseUintIn USIZE v = none →
      (node_list_from_xml attrs).padding = 0) ∧
    (getAttr attrs "start" = none → (node_list_from_xml attrs).start = 0) ∧
    (getAttr attrs "start" = some v → parseUintIn USIZE v = none →
      (node_list_from_xml attrs).start = 0) ∧
    (getAttr attrs "type" = none → numAttr attrs "type" U8 = 0) ∧
    (getAttr attrs "type" = some v → parseUintIn U8 v = none →
      numAttr attrs "type" U8 = 0) ∧
    (getAttr attrs "level" = none → levelAttr attrs = 1) ∧
    (getAttr attrs "level" = some v → parseUintIn U32 v = none → levelAttr attrs = 1) ∧
    (ast_from_xml (.element "object" attrs []) =
      some (.mk (.htmlBlock
        { block_type := numAttr attrs "type" U8
          literal := (getAttr attrs "literal").getD "" }) [])) ∧
    (ast_from_xml (.element "h2" attrs []) =
      some (.mk (.heading { level := levelAttr attrs, setext := false }) [])) ∧
    ((node_list_from_xml attrs).tight = true ↔ getAttr attrs "tight" = some "1") ∧
    (ast_from_xml (.element "input" attrs []) =
      some (.mk (.taskItem (getAttr attrs "checked" == some "1")) [])) := by
  refine ⟨?_, ?_, ?_, ?_, ?_, ?_, ?_, ?_, ?_, ?_, rfl, rfl, ?_, rfl⟩
  · intro h; simp [node_list_from_xml, h]
  · intro h h'; simp [node_list_from_xml, h, h']
  · intro h; simp [node_list_from_xml, h]
  · intro h h'; simp [node_list_from_xml, h, h']
  · intro h; simp [node_list_from_xml, h]
  · intro h h'; simp [node_list_from_xml, h, h']
  · intro h; simp [numAttr, h]
  · intro h h'; simp [numAttr, h, h']
  · intro h; simp [levelAttr, h]
  · intro h h'; simp [levelAttr, h, h']
  · simp [node_list_from_xml]

/-- Witness for C5 (amended) at concrete attribute lists. -/
theorem claim_C5_amended_witness :
    (node_list_from_xml [("offset", "oops"), ("tight", "1")]).marker_offset = 0 ∧
    (node_list_from_xml [("offset", "oops"), ("tight", "1")]).tight = true ∧
    (node_list_from_xml [("padding", "7")]).tight = false ∧
    levelAttr [] = 1 ∧
    numAttr [("type", "999")] "type" U8 = 0 := by
  obtain ⟨c1, c2, c3, c4, c5, c6, c7, c8, c9, c10, c11, c12, c13, c14⟩ :=
    claim_C5_amended [("offset", "oops"), ("tight", "1")] "oops"
  obtain ⟨d1, d2, d3, d4, d5, d6, d7, d8, d9, d10, d11, d12, d13, d14⟩ :=
    claim_C5_amended [("padding", "7")] "999"
  obtain ⟨e1, e2, e3, e4, e5, e6, e7, e8, e9, e10, e11, e12, e13, e14⟩ :=
    claim_C5_amended [("type", "999")] "999"
  refine ⟨c2 (by decide) (by decide), c13.mpr (by decide), ?_, ?_, ?_⟩
  · rw [Bool.eq_false_iff]
    intro hx
    exact absurd (d13.mp hx) (by decide)
  · exact (claim_C5_amended [] "x").2.2.2.2.2.2.2.2.1 (by decide)
  · exact e8 (by decide) (by decide)

/-! ### Claim C10: heading level comes from the attribute alone -/

theorem ast_heading_tag (n : String) (attrs : List (String × String))
    (cs : List XmlNode)
    (hn : n = "h1" ∨ n = "h2" ∨ n = "h3" ∨ n = "h4" ∨ n = "h5" ∨ n = "h6") :
    ast_from_xml (.element n attrs cs) =
      (ast_from_xml_list cs).map
        (fun l => .mk (.heading { level := levelAttr attrs, setext := false }) l) := by
  rcases hn with h | h | h | h | h | h <;> subst h <;> rfl

/-- C10: for a heading tag of any rank from one to six, the reconstructed
level is taken solely from the level attribute - the digit in the tag name is
ignored: a parseable attribute value yields its value even when it differs
from the tag rank, and a missing or unparseable attribute yields level one. -/
theorem claim_C10 (k : Nat) (hk1 : 1 ≤ k) (hk2 : k ≤ 6)
    (attrs : List (String × String)) (cs : List XmlNode) (v : String) (m : Nat) :
    (getAttr attrs "level" = some v → parseUintIn U32 v = some m →
      ast_from_xml (.element ("h" ++ Nat.repr k) attrs cs) =
        (ast_from_xml_list cs).map
          (fun l => .mk (.heading { level := m, setext := false }) l)) ∧
    (getAttr attrs "level" = none →
      ast_from_xml (.element ("h" ++ Nat.repr k) attrs cs) =
        (ast_from_xml_list cs).map
          (fun l => .mk (.heading { level := 1, setext := false }) l)) ∧
    (getAttr attrs "level" = some v → parseUintIn U32 v = none →
      ast_from_xml (.element ("h" ++ Nat.repr k) attrs cs) =
        (ast_from_xml_list cs).map
          (fun l => .mk (.heading { level := 1, setext := false }) l)) := by
  have htag := ast_heading_tag ("h" ++ Nat.repr k) attrs cs (by interval_cases k <;> decide)
  refine ⟨?_, ?_, ?_⟩
  · intro h h'
    rw [htag]
    simp [levelAttr, h, h']
  · intro h
    rw [htag]
    simp [levelAttr, h]
  · intro h h'
    rw [htag]
    simp [levelAttr, h, h']

/-- Witness for C10: a rank-two heading tag with level attribute five decodes
to level five; a rank-three heading tag without the attribute decodes to one. -/
theorem claim_C10_witness :
    ast_from_xml (.element "h2" [("level", "5")] []) =
      some (.mk (.heading { level := 5, setext := false }) []) ∧
    ast_from_xml (.element "h3" [] []) =
      some (.mk (.heading { level := 1, setext := false }) []) := by
  constructor
  · exact ((claim_C10 2 (by decide) (by decide) [("level", "5")] [] "5" 5).1
      (by decide) (by decide)).trans rfl
  · exact ((claim_C10 3 (by decide) (by decide) [] [] "x" 0).2.1 (by decide)).trans rfl

/-! ### Claim C9: unterminated frontmatter -/

/-- C9: when the raw input begins with a frontmatter opening delimiter and the
rest of the input contains no closing occurrence of that delimiter, reading
fails with the unexpected-end-of-file error and returns nothing else. -/
theorem claim_C9 (buf : String) :
    ("+++".data <+: buf.data → ¬ ("+++".data <:+: buf.data.drop 3) →
      read_cmark_with_frontmatter buf = .error .unexpectedEof) ∧
    (¬ ("+++".data <+: buf.data) → "---".data <+: buf.data →
      ¬ ("---".data <:+: buf.data.drop 3) →
      read_cmark_with_frontmatter buf = .error .unexpectedEof) := by
  constructor
  · intro h1 h2
    have hsp1 : splitOnceL "+++".data buf.data = some ([], buf.data.drop 3) := by
      unfold splitOnceL
      rw [if_pos (isPrefixOf_eq_true_iff.mpr h1)]
      rfl
    have hsp2 : splitOnceL "+++".data (buf.data.drop 3) = none :=
      splitOnceL_none_iff.mpr h2
    unfold read_cmark_with_frontmatter
    rw [if_pos (isPrefixOf_eq_true_iff.mpr h1)]
    unfold split_frontmatter splitn3
    rw [hsp1]
    simp [hsp2, Except.map]
  · intro h0 h1 h2
    have hsp1 : splitOnceL "---".data buf.data = some ([], buf.data.drop 3) := by
      unfold splitOnceL
      rw [if_pos (isPrefixOf_eq_true_iff.mpr h1)]
      rfl
    have hsp2 : splitOnceL "---".data (buf.data.drop 3) = none :=
      splitOnceL_none_iff.mpr h2
    unfold read_cmark_with_frontmatter
    rw [if_neg (fun hx => h0 (isPrefixOf_eq_true_iff.mp hx)),
      if_pos (isPrefixOf_eq_true_iff.mpr h1)]
    unfold split_frontmatter splitn3
    rw [hsp1]
    simp [hsp2, Except.map]

/-- Witness for C9 at concrete unterminated inputs for both delimiters. -/
theorem claim_C9_witness :
    read_cmark_with_frontmatter "+++hello" = .error .unexpectedEof ∧
    read_cmark_with_frontmatter "---world" = .error .unexpectedEof :=
  ⟨(claim_C9 "+++hello").1 (by decide) (by decide),
   (claim_C9 "---world").2 (by decide) (by decide) (by decide)⟩

end CmarkXml
